import Mathlib

/-!
# Shallow embedding of `src/analysis/analyze.py`

The script scans folders of JSON benchmark files, extracts per-file metric
records, derives a cost metric when an hourly price is supplied, groups the
records by folder basename, builds per-folder (x, y) series for plotting, sorts
each series by x before drawing, and selects a best-throughput record per
folder for the printed summary.

Modelling choices:
* JSON numbers are modelled as rationals (`ℚ`); the `float('inf')` sentinel
  stored for the cost of a zero-throughput record is modelled by a dedicated
  constructor, giving the value type `Val` below.
* A benchmark file is modelled as its name together with `Option MetricsObj`:
  `none` models a file whose read or JSON parse fails (the
  `json.JSONDecodeError` / `FileNotFoundError` handler, lines 126–129), and a
  `MetricsObj` field is `none` exactly when `metrics.get(key)` yields `None`
  in Python (key absent, or present with a `null` value; a missing `metrics`
  object behaves as the empty dict, line 92, i.e. all fields `none`).
* A folder input is `Option (List BenchFile)`: `none` models a supplied path
  that is not a directory (line 81), `some files` a directory with its
  `.json`-candidate entries in directory-listing order.
* Python dicts keyed by strings are modelled as association lists in insertion
  order, with assignment `d[k] = v` modelled by `dict_insert` (overwrite in
  place, keeping the original position of an existing key).
-/

/-- A numeric value as it appears in a record: a JSON number (modelled as a
rational) or the positive-infinity sentinel `float('inf')` that line 112 of
`analyze.py` stores as the cost of a zero-throughput record. -/
inductive Val where
  | num (q : ℚ)
  | inf
deriving DecidableEq

namespace Val

/-- Python `<=` on these values: `inf` is greater than every number. -/
def le : Val → Val → Prop
  | num a, num b => a ≤ b
  | num _, inf => True
  | inf, num _ => False
  | inf, inf => True

/-- Python `<` on these values. -/
def lt : Val → Val → Prop
  | num a, num b => a < b
  | num _, inf => True
  | _, _ => False

instance decLe : DecidableRel Val.le := fun a b => by
  cases a <;> cases b <;> (simp only [le]; infer_instance)

instance decLt : DecidableRel Val.lt := fun a b => by
  cases a <;> cases b <;> (simp only [lt]; infer_instance)

theorem le_refl_val : ∀ a : Val, a.le a := by
  intro a; cases a <;> simp [le]

theorem le_trans_val : ∀ {a b c : Val}, a.le b → b.le c → a.le c := by
  intro a b c
  cases a <;> cases b <;> cases c <;> simp [le] <;>
    exact fun h1 h2 => h1.trans h2

theorem le_antisymm_val : ∀ {a b : Val}, a.le b → b.le a → a = b := by
  intro a b
  cases a <;> cases b <;> simp [le] <;>
    exact fun h1 h2 => le_antisymm h1 h2

theorem le_total_val : ∀ a b : Val, a.le b ∨ b.le a := by
  intro a b
  cases a <;> cases b <;> simp [le]
  exact le_total _ _

theorem lt_iff_val : ∀ a b : Val, a.lt b ↔ a.le b ∧ ¬ b.le a := by
  intro a b
  cases a <;> cases b
  · simp only [le, lt]; exact lt_iff_le_not_le
  · simp [le, lt]
  · simp [le, lt]
  · simp [le, lt]

instance : LinearOrder Val where
  le := Val.le
  lt := Val.lt
  le_refl := le_refl_val
  le_trans := fun _ _ _ => le_trans_val
  le_antisymm := fun _ _ => le_antisymm_val
  le_total := le_total_val
  lt_iff_le_not_le := fun a b => lt_iff_val a b
  decidableLE := decLe
  decidableEq := inferInstance
  decidableLT := decLt

end Val

/-- The four metric values extracted from a parsed file (`analyze.py`
lines 92–96): `metrics.get("throughput")`, `metrics.get("avg_per_token_latency_ms")`
(local name `latency`), `metrics.get("avg_normalized_time_per_output_token_ms")`
(local name `normalized_latency`) and `metrics.get("request_rate")`. A field is
`none` exactly when `.get` yields `None` (key absent, or present and null). -/
structure MetricsObj where
  throughput : Option ℚ
  latency : Option ℚ
  normalized_latency : Option ℚ
  request_rate : Option ℚ
deriving DecidableEq

/-- One entry of an input directory: its file name and, when the name
qualifies, the outcome of reading and JSON-parsing it (`none` models the
`json.JSONDecodeError` / `FileNotFoundError` / generic-exception handlers,
`analyze.py` lines 126–129). -/
structure BenchFile where
  name : String
  parsed : Option MetricsObj
deriving DecidableEq

/-- The `point_data` dict built at `analyze.py` lines 99–112: `throughput` and
`request_rate` are always present (line 98 guards construction), the two
latency fields keep whatever `.get` returned, and `cost_per_million_tokens` is
present only in the two cases of lines 107–112. -/
structure Record where
  throughput : ℚ
  latency : Option ℚ
  normalized_latency : Option ℚ
  request_rate : ℚ
  filename : String
  cost_per_million_tokens : Option Val
deriving DecidableEq

/-- The four dict keys `_prepare_plot_data` is called with as `x_key`/`y_key`
(`analyze.py` lines 172, 185, 199) plus `'throughput'`. -/
inductive PlotKey where
  | latency
  | normalized_latency
  | throughput
  | cost_per_million_tokens
deriving DecidableEq

/-- `p.get(key)` on a `point_data` dict, `analyze.py` line 137: the two always-
present numeric fields come back as numbers, the optional ones as stored. -/
def Record.getKey : Record → PlotKey → Option Val
  | r, .latency => r.latency.map Val.num
  | r, .normalized_latency => r.normalized_latency.map Val.num
  | r, .throughput => some (Val.num r.throughput)
  | r, .cost_per_million_tokens => r.cost_per_million_tokens

/-- The per-file record construction, `analyze.py` lines 98–114: a record is
built iff both `throughput` and `request_rate` are non-`None`; with a price
supplied, the cost field is the formula of line 109 for positive throughput,
the infinity sentinel of line 112 for zero throughput, and absent otherwise. -/
def parse_file (filename : String) (m : MetricsObj) (price : Option ℚ) : Option Record :=
  match m.throughput, m.request_rate with
  | some t, some rr =>
      let cost : Option Val :=
        match price with
        | some P =>
            if 0 < t then some (Val.num ((P * 1000000) / (t * 3600)))
            else if t = 0 then some Val.inf
            else none
        | none => none
      some ⟨t, m.latency, m.normalized_latency, rr, filename, cost⟩
  | _, _ => none

/-- `filename.lower().endswith('.json')`, `analyze.py` line 86: lower-case the
file name character by character and test for the `.json` suffix, both on the
character-list view of the string. -/
def json_name (s : String) : Bool :=
  List.isSuffixOf ".json".data (s.data.map Char.toLower)

/-- `_parse_folder_data`, `analyze.py` lines 76–131: an empty result for a path
that is not a directory (lines 81–83), otherwise one record per listed file
whose name qualifies, parses, and carries both required metrics. -/
def parse_folder_data (dir : Option (List BenchFile)) (price : Option ℚ) : List Record :=
  match dir with
  | none => []
  | some files =>
      files.filterMap fun f =>
        if json_name f.name then f.parsed.bind (fun m => parse_file f.name m price)
        else none

/-- Python dict assignment `d[k] = v` on a dict in insertion order: overwrite
in place when the key exists, append otherwise. -/
def dict_insert {α : Type} (k : String) (v : α) : List (String × α) → List (String × α)
  | [] => [(k, v)]
  | (k', v') :: rest => if k' = k then (k, v) :: rest else (k', v') :: dict_insert k v rest

/-- Python dict lookup `d[k]` / `d.get(k)` on the association-list model. -/
def dict_lookup {α : Type} (k : String) : List (String × α) → Option α
  | [] => none
  | (k', v) :: rest => if k' = k then some v else dict_lookup k rest

/-- One iteration of the folder loop of `analyze_and_plot`, `analyze.py` lines
156–160: parse the folder and, when the record list is non-empty (`if
parsed_data:`), store it under the folder's basename. -/
def analyze_step (price : Option ℚ) (acc : List (String × List Record))
    (inp : String × Option (List BenchFile)) : List (String × List Record) :=
  let pd := parse_folder_data inp.2 price
  if pd = [] then acc else dict_insert inp.1 pd acc

/-- The `all_folders_data` construction of `analyze_and_plot`, `analyze.py`
lines 154–160: each input is a (basename, directory contents) pair; a folder
whose parse produced a non-empty record list is stored under its basename. -/
def analyze_collect (inputs : List (String × Option (List BenchFile)))
    (price : Option ℚ) : List (String × List Record) :=
  inputs.foldl (analyze_step price) []

/-- The filter of `_prepare_plot_data` line 137: both selected fields
non-`None`. -/
def valid_point (xk yk : PlotKey) (p : Record) : Bool :=
  (p.getKey xk).isSome && (p.getKey yk).isSome

/-- One iteration of the folder loop of `_prepare_plot_data`, `analyze.py`
lines 136–142: keep the records with both selected fields present
(`valid_points`); when any survive, store their x values and y values (in
record order) under the folder's label. -/
def prepare_step (xk yk : PlotKey) (acc : List (String × (List Val × List Val)))
    (fp : String × List Record) : List (String × (List Val × List Val)) :=
  let vp := fp.2.filter (valid_point xk yk)
  if vp = [] then acc
  else dict_insert fp.1
    (vp.filterMap (fun p => p.getKey xk), vp.filterMap (fun p => p.getKey yk)) acc

/-- `_prepare_plot_data`, `analyze.py` lines 133–143: per folder, the loop
above over the grouped records, starting from the empty dict. -/
def prepare_plot_data (folders : List (String × List Record)) (xk yk : PlotKey) :
    List (String × (List Val × List Val)) :=
  folders.foldl (prepare_step xk yk) []

/-- The tuple comparison Python's `sorted` uses on the zipped `(x, y)` pairs at
`analyze.py` line 33: lexicographic on (x, y). -/
def pairLe (p q : Val × Val) : Prop := p.1 < q.1 ∨ (p.1 = q.1 ∧ p.2 ≤ q.2)

instance : DecidableRel pairLe := fun p q => by
  unfold pairLe; infer_instance

instance : IsTotal (Val × Val) pairLe where
  total p q := by
    rcases lt_trichotomy p.1 q.1 with h | h | h
    · exact Or.inl (Or.inl h)
    · rcases le_total p.2 q.2 with h2 | h2
      · exact Or.inl (Or.inr ⟨h, h2⟩)
      · exact Or.inr (Or.inr ⟨h.symm, h2⟩)
    · exact Or.inr (Or.inl h)

instance : IsTrans (Val × Val) pairLe where
  trans p q s hpq hqs := by
    rcases hpq with h1 | ⟨e1, l1⟩
    · rcases hqs with h2 | ⟨e2, _⟩
      · exact Or.inl (h1.trans h2)
      · exact Or.inl (e2 ▸ h1)
    · rcases hqs with h2 | ⟨e2, l2⟩
      · exact Or.inl (e1 ▸ h2)
      · exact Or.inr ⟨e1.trans e2, l1.trans l2⟩

/-- `sorted(zip(x_data, y_data))`, `analyze.py` line 33: a stable sort of the
(x, y) pairs under Python's lexicographic tuple comparison. -/
def sort_points (l : List (Val × Val)) : List (Val × Val) :=
  List.insertionSort pairLe l

/-- Python's `max(xs, key=key)` over a non-empty list `x :: xs`, which keeps
the first-encountered element among equal keys (`analyze.py` line 62). -/
def python_max {α : Type} (key : α → ℚ) (x : α) (xs : List α) : α :=
  xs.foldl (fun best a => if key best < key a then a else best) x

/-- The selection of `_print_summary`, `analyze.py` lines 51–62: filter to the
points whose `throughput` key is non-`None` (always true for constructed
records) and take the max-throughput one; `none` when there is nothing. -/
def print_summary_best (pts : List Record) : Option Record :=
  match pts.filter (fun p => (p.getKey .throughput).isSome) with
  | [] => none
  | p :: rest => some (python_max (fun r => r.throughput) p rest)

/-! ## Helper lemmas -/

theorem parse_file_isSome (fn : String) (m : MetricsObj) (price : Option ℚ) :
    (parse_file fn m price).isSome ↔ m.throughput.isSome ∧ m.request_rate.isSome := by
  obtain ⟨mt, ml, mnl, mr⟩ := m
  cases mt <;> cases mr <;> simp [parse_file]

theorem dict_lookup_insert_self {α : Type} (k : String) (v : α) (d : List (String × α)) :
    dict_lookup k (dict_insert k v d) = some v := by
  induction d with
  | nil => simp [dict_insert, dict_lookup]
  | cons hd tl ih =>
      obtain ⟨k', v'⟩ := hd
      by_cases h : k' = k <;> simp [dict_insert, dict_lookup, h, ih]

theorem dict_lookup_insert_ne {α : Type} {k k' : String} (h : k' ≠ k) (v : α)
    (d : List (String × α)) :
    dict_lookup k (dict_insert k' v d) = dict_lookup k d := by
  induction d with
  | nil => simp [dict_insert, dict_lookup, h]
  | cons hd tl ih =>
      obtain ⟨k'', v''⟩ := hd
      by_cases h2 : k'' = k'
      · subst h2
        simp [dict_insert, dict_lookup, h]
      · have h' : ¬ k = k' := fun e => h e.symm
        by_cases h3 : k'' = k <;> simp [dict_insert, dict_lookup, h2, h3, ih, h']

theorem mem_dict_insert {α : Type} {e : String × α} {k : String} {v : α} :
    ∀ {d : List (String × α)}, e ∈ dict_insert k v d → e = (k, v) ∨ e ∈ d := by
  intro d
  induction d with
  | nil => intro he; simpa [dict_insert] using he
  | cons hd tl ih =>
      intro he
      obtain ⟨k', v'⟩ := hd
      by_cases h : k' = k
      · simp only [dict_insert, h, if_pos rfl] at he
        rcases List.mem_cons.mp he with he | he
        · exact Or.inl he
        · exact Or.inr (List.mem_cons_of_mem _ he)
      · simp only [dict_insert, if_neg h] at he
        rcases List.mem_cons.mp he with he | he
        · exact Or.inr (he ▸ List.mem_cons_self _ _)
        · rcases ih he with h2 | h2
          · exact Or.inl h2
          · exact Or.inr (List.mem_cons_of_mem _ h2)

theorem filterMap_map_some {α β : Type} (f : α → Option β) :
    ∀ l : List α, (∀ a ∈ l, (f a).isSome) → (l.filterMap f).map some = l.map f := by
  intro l
  induction l with
  | nil => intro _; rfl
  | cons a t ih =>
      intro h
      obtain ⟨b, hb⟩ := Option.isSome_iff_exists.mp (h a (List.mem_cons_self _ _))
      have ht := ih fun x hx => h x (List.mem_cons_of_mem _ hx)
      simp [List.filterMap_cons, hb, ht]

theorem filterMap_length_of_isSome {α β : Type} (f : α → Option β) (l : List α)
    (h : ∀ a ∈ l, (f a).isSome) : (l.filterMap f).length = l.length := by
  have := congrArg List.length (filterMap_map_some f l h)
  simpa using this

/-! ## Claims -/

/-- C2: a record is created for a parsed file iff both `throughput` and
`request_rate` of its `metrics` object are present and non-null; the two
optional latency fields never affect whether the record is created. -/
theorem c2_record_iff_required_fields (fn : String) (m : MetricsObj) (price : Option ℚ) :
    ((parse_file fn m price).isSome ↔ m.throughput.isSome ∧ m.request_rate.isSome) ∧
    ∀ lat nlat : Option ℚ,
      ((parse_file fn ⟨m.throughput, lat, nlat, m.request_rate⟩ price).isSome ↔
        (parse_file fn m price).isSome) := by
  refine ⟨parse_file_isSome fn m price, ?_⟩
  intro lat nlat
  simp [parse_file_isSome]

/-- C3: for a constructed record, with a price `P` supplied the cost field is
`P * 1000000 / (t * 3600)` when the throughput `t` is strictly positive and
the infinity sentinel when `t = 0`; with no price supplied the cost key is
absent. -/
theorem c3_cost_formula (fn : String) (m : MetricsObj) (t rr P : ℚ)
    (h1 : m.throughput = some t) (h2 : m.request_rate = some rr) :
    (∀ r, parse_file fn m (some P) = some r →
        (0 < t → r.cost_per_million_tokens = some (Val.num ((P * 1000000) / (t * 3600)))) ∧
        (t = 0 → r.cost_per_million_tokens = some Val.inf)) ∧
    ∀ r, parse_file fn m none = some r → r.cost_per_million_tokens = none := by
  constructor
  · intro r hr
    simp only [parse_file, h1, h2] at hr
    constructor
    · intro ht
      rw [if_pos ht] at hr
      obtain rfl := Option.some.inj hr
      rfl
    · intro ht
      subst ht
      rw [if_neg (lt_irrefl 0), if_pos rfl] at hr
      obtain rfl := Option.some.inj hr
      rfl
  · intro r hr
    simp only [parse_file, h1, h2] at hr
    obtain rfl := Option.some.inj hr
    rfl

/-- Witness for C3 at the spec's own concrete scenario: price 3.60/hour and
throughput 1000 tokens/sec, where the formula yields exactly 1. -/
theorem c3_cost_formula_witness :
    (⟨some 1000, none, none, some 5⟩ : MetricsObj).throughput = some 1000 ∧
    (⟨some 1000, none, none, some 5⟩ : MetricsObj).request_rate = some 5 ∧
    ((∀ r, parse_file "a.json" ⟨some 1000, none, none, some 5⟩ (some (18/5)) = some r →
        (0 < (1000:ℚ) →
          r.cost_per_million_tokens = some (Val.num (((18/5) * 1000000) / (1000 * 3600)))) ∧
        ((1000:ℚ) = 0 → r.cost_per_million_tokens = some Val.inf)) ∧
      ∀ r, parse_file "a.json" ⟨some 1000, none, none, some 5⟩ none = some r →
        r.cost_per_million_tokens = none) :=
  ⟨rfl, rfl, c3_cost_formula "a.json" ⟨some 1000, none, none, some 5⟩ 1000 5 (18/5) rfl rfl⟩

/-- C9: a constructed record with strictly negative throughput carries no cost
key even when a price was supplied. -/
theorem c9_negative_throughput_no_cost (fn : String) (m : MetricsObj) (t rr P : ℚ)
    (h1 : m.throughput = some t) (h2 : m.request_rate = some rr) (h3 : t < 0) :
    ∃ r, parse_file fn m (some P) = some r ∧ r.cost_per_million_tokens = none := by
  refine ⟨⟨t, m.latency, m.normalized_latency, rr, fn, none⟩, ?_, rfl⟩
  simp only [parse_file, h1, h2]
  rw [if_neg (not_lt.mpr h3.le), if_neg (ne_of_lt h3)]

/-- Witness for C9 at throughput −1 with price 2 supplied. -/
theorem c9_negative_throughput_no_cost_witness :
    (⟨some (-1), none, none, some 5⟩ : MetricsObj).throughput = some (-1) ∧
    (⟨some (-1), none, none, some 5⟩ : MetricsObj).request_rate = some 5 ∧
    ((-1 : ℚ) < 0) ∧
    ∃ r, parse_file "a.json" ⟨some (-1), none, none, some 5⟩ (some 2) = some r ∧
      r.cost_per_million_tokens = none :=
  ⟨rfl, rfl, by norm_num,
    c9_negative_throughput_no_cost "a.json" ⟨some (-1), none, none, some 5⟩ (-1) 5 2 rfl rfl
      (by norm_num)⟩

/-- C7: a supplied path that is not a directory yields an empty record list,
and removing such an input from the run leaves the collected per-folder data
unchanged — the remaining inputs are still processed. -/
theorem c7_bad_path_skipped (name : String) (price : Option ℚ)
    (pre post : List (String × Option (List BenchFile))) :
    parse_folder_data none price = [] ∧
    analyze_collect (pre ++ (name, none) :: post) price = analyze_collect (pre ++ post) price := by
  refine ⟨rfl, ?_⟩
  unfold analyze_collect
  rw [List.foldl_append, List.foldl_append, List.foldl_cons]
  congr 1

theorem dict_lookup_foldl_analyze (n : String) (price : Option ℚ) :
    ∀ (post : List (String × Option (List BenchFile))),
      (∀ e ∈ post, e.1 = n → parse_folder_data e.2 price = []) →
      ∀ acc, dict_lookup n (List.foldl (analyze_step price) acc post) = dict_lookup n acc := by
  intro post
  induction post with
  | nil => intro _ acc; rfl
  | cons hd tl ih =>
      intro h acc
      rw [List.foldl_cons, ih (fun e he => h e (List.mem_cons_of_mem _ he))]
      simp only [analyze_step]
      by_cases hpd : parse_folder_data hd.2 price = []
      · rw [if_pos hpd]
      · rw [if_neg hpd]
        exact dict_lookup_insert_ne
          (fun e => hpd (h hd (List.mem_cons_self _ _) e)) _ _

/-- C8 counterexample: two same-basename inputs, the first containing one valid
benchmark file and the second an empty directory. The grouping keeps the FIRST
directory's (non-empty) record list — it does not keep (only) the records of
the last same-basename directory processed, whose parse is empty. -/
theorem c8_counterexample :
    dict_lookup "d" (analyze_collect
        [("d", some [⟨"a.json", some ⟨some 100, none, none, some 5⟩⟩]), ("d", some [])] none) =
      some (parse_folder_data (some [⟨"a.json", some ⟨some 100, none, none, some 5⟩⟩]) none) ∧
    dict_lookup "d" (analyze_collect
        [("d", some [⟨"a.json", some ⟨some 100, none, none, some 5⟩⟩]), ("d", some [])] none) ≠
      some (parse_folder_data (some ([] : List BenchFile)) none) ∧
    parse_folder_data (some [(⟨"a.json", some ⟨some 100, none, none, some 5⟩⟩ : BenchFile)]) none ≠
      [] := by
  refine ⟨by decide, by decide, by decide⟩

/-- C8 (amended): among same-basename inputs, the grouping keeps exactly the
records of the last one whose extraction produced a non-empty record list; the
records of every earlier same-basename directory are dropped. Here `f2` is
that directory: its parse is non-empty, and every later input either has a
different basename or parses to zero records (so it is never stored). The
earlier inputs — `pre` and the same-basename `f1` — are arbitrary. -/
theorem c8_last_nonempty_same_basename_wins (n : String) (f1 f2 : Option (List BenchFile))
    (pre post : List (String × Option (List BenchFile))) (price : Option ℚ)
    (h2 : parse_folder_data f2 price ≠ [])
    (hpost : ∀ e ∈ post, e.1 = n → parse_folder_data e.2 price = []) :
    dict_lookup n (analyze_collect (pre ++ (n, f1) :: (n, f2) :: post) price) =
      some (parse_folder_data f2 price) := by
  unfold analyze_collect
  rw [List.foldl_append, List.foldl_cons, List.foldl_cons,
    dict_lookup_foldl_analyze n price post hpost]
  show dict_lookup n
      (analyze_step price (analyze_step price (List.foldl (analyze_step price) [] pre) (n, f1))
        (n, f2)) = _
  simp only [analyze_step]
  rw [if_neg h2]
  exact dict_lookup_insert_self n _ _

/-- Witness for C8 (amended): basename `d` supplied three times — a first
non-empty directory, a second non-empty directory, and a trailing directory
that parses to zero records — plus a later different-basename input. The
grouping returns the second directory's records under `d`: the last non-empty
same-basename one wins, not the final same-basename one. -/
theorem c8_last_nonempty_same_basename_wins_witness :
    parse_folder_data (some [(⟨"b.json", some ⟨some 7, none, none, some 1⟩⟩ : BenchFile)]) none ≠
      [] ∧
    (∀ e ∈ [(("d", some []) : String × Option (List BenchFile)),
            ("e", some [⟨"c.json", some ⟨some 9, none, none, some 2⟩⟩])],
      e.1 = "d" → parse_folder_data e.2 none = []) ∧
    dict_lookup "d" (analyze_collect
        [("d", some [⟨"a.json", some ⟨some 100, none, none, some 5⟩⟩]),
         ("d", some [⟨"b.json", some ⟨some 7, none, none, some 1⟩⟩]),
         ("d", some []),
         ("e", some [⟨"c.json", some ⟨some 9, none, none, some 2⟩⟩])] none) =
      some (parse_folder_data (some [⟨"b.json", some ⟨some 7, none, none, some 1⟩⟩]) none) :=
  ⟨by decide, by decide,
    c8_last_nonempty_same_basename_wins "d"
      (some [⟨"a.json", some ⟨some 100, none, none, some 5⟩⟩])
      (some [⟨"b.json", some ⟨some 7, none, none, some 1⟩⟩]) []
      [("d", some []), ("e", some [⟨"c.json", some ⟨some 9, none, none, some 2⟩⟩])] none
      (by decide) (by decide)⟩

theorem python_max_le {α : Type} (key : α → ℚ) :
    ∀ (xs : List α) (x : α), ∀ a ∈ x :: xs, key a ≤ key (python_max key x xs) := by
  intro xs
  induction xs with
  | nil =>
      intro x a ha
      rcases List.mem_singleton.mp ha with rfl
      exact le_refl _
  | cons b t ih =>
      intro x a ha
      have hstep : python_max key x (b :: t) =
          python_max key (if key x < key b then b else x) t := rfl
      have hx : key x ≤ key (if key x < key b then b else x) := by
        split_ifs with h
        · exact le_of_lt h
        · exact le_refl _
      have hb : key b ≤ key (if key x < key b then b else x) := by
        split_ifs with h
        · exact le_refl _
        · exact le_of_not_lt h
      rcases List.mem_cons.mp ha with rfl | ha2
      · exact hstep ▸ hx.trans (ih _ _ (List.mem_cons_self _ _))
      · rcases List.mem_cons.mp ha2 with rfl | ha3
        · exact hstep ▸ hb.trans (ih _ _ (List.mem_cons_self _ _))
        · exact hstep ▸ ih _ _ (List.mem_cons_of_mem _ ha3)

theorem python_max_first {α : Type} (key : α → ℚ) :
    ∀ (xs : List α) (x : α), ∃ l1 l2, x :: xs = l1 ++ python_max key x xs :: l2 ∧
      ∀ a ∈ l1, key a < key (python_max key x xs) := by
  intro xs
  induction xs with
  | nil => intro x; exact ⟨[], [], rfl, by simp⟩
  | cons b t ih =>
      intro x
      by_cases h : key x < key b
      · have hstep : python_max key x (b :: t) = python_max key b t := by
          simp [python_max, List.foldl_cons, h]
        obtain ⟨l1, l2, heq, hlt⟩ := ih b
        refine ⟨x :: l1, l2, ?_, ?_⟩
        · rw [hstep, List.cons_append, ← heq]
        · intro a ha
          rcases List.mem_cons.mp ha with rfl | ha2
          · exact hstep ▸ lt_of_lt_of_le h (python_max_le key t b b (List.mem_cons_self _ _))
          · exact hstep ▸ hlt a ha2
      · have hstep : python_max key x (b :: t) = python_max key x t := by
          simp [python_max, List.foldl_cons, h]
        obtain ⟨l1, l2, heq, hlt⟩ := ih x
        cases l1 with
        | nil =>
            simp only [List.nil_append] at heq
            injection heq with hxM htl
            refine ⟨[], b :: t, ?_, by simp⟩
            rw [hstep, ← hxM, List.nil_append]
        | cons c l1' =>
            simp only [List.cons_append] at heq
            injection heq with hxc htl
            have hxmem : x ∈ c :: l1' := hxc ▸ List.mem_cons_self _ _
            have hxM : key x < key (python_max key x t) := hlt x hxmem
            refine ⟨x :: b :: l1', l2, ?_, ?_⟩
            · rw [hstep]
              simp only [List.cons_append]
              rw [← htl]
            · intro a ha
              rcases List.mem_cons.mp ha with rfl | ha2
              · exact hstep ▸ hxM
              · rcases List.mem_cons.mp ha2 with rfl | ha3
                · exact hstep ▸ lt_of_le_of_lt (le_of_not_lt h) hxM
                · exact hstep ▸ hlt a (List.mem_cons_of_mem _ ha3)

/-- C4: for a non-empty record list the summary selects a record whose
throughput is greater than or equal to every record's in the list, and it is
the first-encountered one: every record strictly before it has strictly
smaller throughput. -/
theorem c4_summary_best_throughput (p : Record) (rest : List Record) :
    ∃ m, print_summary_best (p :: rest) = some m ∧
      (∀ q ∈ p :: rest, q.throughput ≤ m.throughput) ∧
      ∃ l1 l2, p :: rest = l1 ++ m :: l2 ∧ ∀ q ∈ l1, q.throughput < m.throughput := by
  have hfilter : (p :: rest).filter (fun r => (r.getKey .throughput).isSome) = p :: rest := by
    apply List.filter_eq_self.mpr
    intro a _
    rfl
  refine ⟨python_max (fun r => r.throughput) p rest, ?_, ?_, ?_⟩
  · unfold print_summary_best
    rw [hfilter]
  · exact python_max_le _ rest p
  · exact python_max_first _ rest p

/-- C5: the number of records extracted from a directory is at most the number
of its files whose (case-insensitively lower-cased) name ends in `.json`, with
equality exactly when every such file parses and carries both `throughput` and
`request_rate` present and non-null. -/
theorem c5_record_count (files : List BenchFile) (price : Option ℚ) :
    (parse_folder_data (some files) price).length ≤
      (files.filter (fun f => json_name f.name)).length ∧
    ((parse_folder_data (some files) price).length =
        (files.filter (fun f => json_name f.name)).length ↔
      ∀ f ∈ files, json_name f.name = true →
        ∃ m, f.parsed = some m ∧ m.throughput.isSome ∧ m.request_rate.isSome) := by
  induction files with
  | nil => simp [parse_folder_data]
  | cons f t ih =>
      obtain ⟨ihle, ihiff⟩ := ih
      by_cases hj : json_name f.name
      · have hrhs : (f :: t).filter (fun f => json_name f.name) =
            f :: t.filter (fun f => json_name f.name) := by
          simp [List.filter_cons, hj]
        rcases hp : f.parsed with _ | m
        · have hlhs : parse_folder_data (some (f :: t)) price =
              parse_folder_data (some t) price := by
            simp [parse_folder_data, hj, hp]
          rw [hlhs, hrhs]
          constructor
          · simpa using Nat.le_succ_of_le ihle
          · constructor
            · intro heq
              simp only [List.length_cons] at heq
              omega
            · intro hall
              obtain ⟨m, hm, _⟩ := hall f (List.mem_cons_self _ _) hj
              rw [hp] at hm
              exact absurd hm (by simp)
        · by_cases hok : m.throughput.isSome ∧ m.request_rate.isSome
          · have hsome : (parse_file f.name m price).isSome :=
              (parse_file_isSome _ _ _).mpr hok
            obtain ⟨r, hr⟩ := Option.isSome_iff_exists.mp hsome
            have hlhs : parse_folder_data (some (f :: t)) price =
                r :: parse_folder_data (some t) price := by
              simp [parse_folder_data, hj, hp, hr]
            rw [hlhs, hrhs]
            simp only [List.length_cons, Nat.add_le_add_iff_right, Nat.add_right_cancel_iff,
              List.forall_mem_cons]
            refine ⟨ihle, ?_⟩
            rw [ihiff]
            constructor
            · intro hall
              exact ⟨fun _ => ⟨m, hp, hok⟩, hall⟩
            · intro hall
              exact hall.2
          · have hnone : parse_file f.name m price = none := by
              rcases h2 : parse_file f.name m price with _ | r
              · rfl
              · exact absurd ((parse_file_isSome f.name m price).mp (by simp [h2])) hok
            have hlhs : parse_folder_data (some (f :: t)) price =
                parse_folder_data (some t) price := by
              simp [parse_folder_data, hj, hp, hnone]
            rw [hlhs, hrhs]
            constructor
            · simpa using Nat.le_succ_of_le ihle
            · constructor
              · intro heq
                simp only [List.length_cons] at heq
                omega
              · intro hall
                obtain ⟨m', hm', hok'⟩ := hall f (List.mem_cons_self _ _) hj
                rw [hp] at hm'
                obtain rfl := Option.some.inj hm'
                exact absurd hok' hok
      · have hrhs : (f :: t).filter (fun f => json_name f.name) =
            t.filter (fun f => json_name f.name) := by
          simp [List.filter_cons, hj]
        have hlhs : parse_folder_data (some (f :: t)) price =
            parse_folder_data (some t) price := by
          simp [parse_folder_data, hj]
        rw [hlhs, hrhs]
        refine ⟨ihle, ?_⟩
        rw [ihiff]
        simp only [List.forall_mem_cons]
        constructor
        · intro hall
          exact ⟨fun hcontra => absurd hcontra hj, hall⟩
        · intro hall
          exact hall.2

theorem mem_prepare_aux (xk yk : PlotKey) :
    ∀ (fs : List (String × List Record)) (acc : List (String × (List Val × List Val)))
      (e : String × (List Val × List Val)), e ∈ List.foldl (prepare_step xk yk) acc fs →
      e ∈ acc ∨ ∃ fp ∈ fs, fp.1 = e.1 ∧ fp.2.filter (valid_point xk yk) ≠ [] ∧
        e.2 = ((fp.2.filter (valid_point xk yk)).filterMap (fun p => p.getKey xk),
               (fp.2.filter (valid_point xk yk)).filterMap (fun p => p.getKey yk)) := by
  intro fs
  induction fs with
  | nil => intro acc e he; exact Or.inl he
  | cons hd tl ih =>
      intro acc e he
      rw [List.foldl_cons] at he
      rcases ih _ e he with hacc | ⟨fp, hfp, h1, h2, h3⟩
      · simp only [prepare_step] at hacc
        by_cases hv : hd.2.filter (valid_point xk yk) = []
        · rw [if_pos hv] at hacc
          exact Or.inl hacc
        · rw [if_neg hv] at hacc
          rcases mem_dict_insert hacc with heq | hmem
          · right
            refine ⟨hd, List.mem_cons_self _ _, ?_, hv, ?_⟩
            · rw [heq]
            · rw [heq]
          · exact Or.inl hmem
      · exact Or.inr ⟨fp, List.mem_cons_of_mem _ hfp, h1, h2, h3⟩

theorem mem_prepare (folders : List (String × List Record)) (xk yk : PlotKey)
    (e : String × (List Val × List Val)) (he : e ∈ prepare_plot_data folders xk yk) :
    ∃ fp ∈ folders, fp.1 = e.1 ∧ fp.2.filter (valid_point xk yk) ≠ [] ∧
      e.2 = ((fp.2.filter (valid_point xk yk)).filterMap (fun p => p.getKey xk),
             (fp.2.filter (valid_point xk yk)).filterMap (fun p => p.getKey yk)) := by
  rcases mem_prepare_aux xk yk folders [] e he with h | h
  · exact absurd h (List.not_mem_nil e)
  · exact h

theorem valid_point_isSome {xk yk : PlotKey} {p : Record}
    (h : valid_point xk yk p = true) : (p.getKey xk).isSome ∧ (p.getKey yk).isSome := by
  simpa [valid_point] using h

/-- C6: every series the Series Builder outputs has at least one pair; a
source label whose record list has no qualifying record is absent from the
output entirely. -/
theorem c6_no_empty_series (folders : List (String × List Record)) (xk yk : PlotKey)
    (e : String × (List Val × List Val)) (he : e ∈ prepare_plot_data folders xk yk) :
    e.2.1 ≠ [] ∧ e.2.2 ≠ [] ∧
      ∃ pts, (e.1, pts) ∈ folders ∧ pts.filter (valid_point xk yk) ≠ [] := by
  obtain ⟨fp, hfp, h1, h2, h3⟩ := mem_prepare folders xk yk e he
  have hx : ∀ p ∈ fp.2.filter (valid_point xk yk), (p.getKey xk).isSome := by
    intro p hp
    exact (valid_point_isSome (List.of_mem_filter hp)).1
  have hy : ∀ p ∈ fp.2.filter (valid_point xk yk), (p.getKey yk).isSome := by
    intro p hp
    exact (valid_point_isSome (List.of_mem_filter hp)).2
  have hpos : 0 < (fp.2.filter (valid_point xk yk)).length :=
    List.length_pos.mpr h2
  have hlen1 : ((fp.2.filter (valid_point xk yk)).filterMap (fun p => p.getKey xk)).length =
      (fp.2.filter (valid_point xk yk)).length :=
    filterMap_length_of_isSome _ _ hx
  have hlen2 : ((fp.2.filter (valid_point xk yk)).filterMap (fun p => p.getKey yk)).length =
      (fp.2.filter (valid_point xk yk)).length :=
    filterMap_length_of_isSome _ _ hy
  refine ⟨?_, ?_, fp.2, ?_, h2⟩
  · rw [h3]
    exact List.ne_nil_of_length_pos (by rw [hlen1]; exact hpos)
  · rw [h3]
    exact List.ne_nil_of_length_pos (by rw [hlen2]; exact hpos)
  · have hfp' : (fp.1, fp.2) ∈ folders := by simpa using hfp
    rw [h1] at hfp'
    exact hfp'

/-- Witness for C6: one folder with one record carrying a latency of 20 and a
throughput of 100; the latency/throughput series for it is non-empty. -/
theorem c6_no_empty_series_witness :
    (("d", ([Val.num 20], [Val.num 100])) ∈
        prepare_plot_data [("d", [⟨100, some 20, none, 5, "a.json", none⟩])]
          .latency .throughput) ∧
    (("d", ([Val.num 20], [Val.num 100])).2.1 ≠ [] ∧
      ("d", ([Val.num 20], [Val.num 100])).2.2 ≠ [] ∧
      ∃ pts, (("d", ([Val.num 20], [Val.num 100])).1, pts) ∈
          [("d", [(⟨100, some 20, none, 5, "a.json", none⟩ : Record)])] ∧
        pts.filter (valid_point .latency .throughput) ≠ []) :=
  ⟨by decide,
    c6_no_empty_series [("d", [⟨100, some 20, none, 5, "a.json", none⟩])] .latency .throughput
      ("d", ([Val.num 20], [Val.num 100])) (by decide)⟩

/-- C10: in every output series, the x list and y list have equal length and
are the per-record x and y values of one sublist of the source records, in
source order — index i of both lists comes from the same single record. -/
theorem c10_series_alignment (folders : List (String × List Record)) (xk yk : PlotKey)
    (e : String × (List Val × List Val)) (he : e ∈ prepare_plot_data folders xk yk) :
    e.2.1.length = e.2.2.length ∧
    ∃ pts rp : List Record, (e.1, pts) ∈ folders ∧ rp.Sublist pts ∧
      e.2.1.map some = rp.map (fun p => p.getKey xk) ∧
      e.2.2.map some = rp.map (fun p => p.getKey yk) := by
  obtain ⟨fp, hfp, h1, h2, h3⟩ := mem_prepare folders xk yk e he
  have hx : ∀ p ∈ fp.2.filter (valid_point xk yk), (p.getKey xk).isSome := by
    intro p hp
    exact (valid_point_isSome (List.of_mem_filter hp)).1
  have hy : ∀ p ∈ fp.2.filter (valid_point xk yk), (p.getKey yk).isSome := by
    intro p hp
    exact (valid_point_isSome (List.of_mem_filter hp)).2
  have hmx : e.2.1.map some = (fp.2.filter (valid_point xk yk)).map (fun p => p.getKey xk) := by
    rw [h3]
    exact filterMap_map_some _ _ hx
  have hmy : e.2.2.map some = (fp.2.filter (valid_point xk yk)).map (fun p => p.getKey yk) := by
    rw [h3]
    exact filterMap_map_some _ _ hy
  constructor
  · have l1 := congrArg List.length hmx
    have l2 := congrArg List.length hmy
    simp only [List.length_map] at l1 l2
    rw [l1, l2]
  · refine ⟨fp.2, fp.2.filter (valid_point xk yk), ?_, List.filter_sublist _, hmx, hmy⟩
    have hfp' : (fp.1, fp.2) ∈ folders := by simpa using hfp
    rw [h1] at hfp'
    exact hfp'

/-- Witness for C10: one folder with two records, one qualifying for the
normalized-latency/throughput pairing; the series aligns x value 30 with y
value 80 from that record. -/
theorem c10_series_alignment_witness :
    (("g", ([Val.num 30], [Val.num 80])) ∈
        prepare_plot_data
          [("g", [⟨80, none, some 30, 2, "b.json", none⟩, ⟨90, none, none, 3, "c.json", none⟩])]
          .normalized_latency .throughput) ∧
    ((("g", ([Val.num 30], [Val.num 80])) : String × (List Val × List Val)).2.1.length =
        ("g", ([Val.num 30], [Val.num 80])).2.2.length ∧
      ∃ pts rp : List Record, (("g", ([Val.num 30], [Val.num 80])).1, pts) ∈
          [("g", [(⟨80, none, some 30, 2, "b.json", none⟩ : Record),
                  ⟨90, none, none, 3, "c.json", none⟩])] ∧
        rp.Sublist pts ∧
        ("g", ([Val.num 30], [Val.num 80])).2.1.map some =
          rp.map (fun p => p.getKey .normalized_latency) ∧
        ("g", ([Val.num 30], [Val.num 80])).2.2.map some =
          rp.map (fun p => p.getKey .throughput)) :=
  ⟨by decide,
    c10_series_alignment
      [("g", [⟨80, none, some 30, 2, "b.json", none⟩, ⟨90, none, none, 3, "c.json", none⟩])]
      .normalized_latency .throughput ("g", ([Val.num 30], [Val.num 80])) (by decide)⟩

/-- C1 counterexample: a series whose two pairs share the x value 2. The
claimed tie-stability requires the sort to keep the pairs in input order, but
the code sorts the zipped (x, y) tuples by full tuple comparison and reorders
them by y. -/
theorem c1_counterexample :
    sort_points [(Val.num 2, Val.num 7), (Val.num 2, Val.num 3)] =
      [(Val.num 2, Val.num 3), (Val.num 2, Val.num 7)] ∧
    sort_points [(Val.num 2, Val.num 7), (Val.num 2, Val.num 3)] ≠
      [(Val.num 2, Val.num 7), (Val.num 2, Val.num 3)] := by
  exact ⟨by decide, by decide⟩

/-- C1 (amended): the plotted pairs are a permutation of the input pairs
sorted lexicographically by (x, y): x values are non-decreasing along the
output, and pairs with equal x are ordered by non-decreasing y — not by input
order. -/
theorem c1_sorted_lexicographic (l : List (Val × Val)) :
    (sort_points l).Perm l ∧
    (sort_points l).Pairwise pairLe ∧
    (sort_points l).Pairwise (fun p q => p.1 ≤ q.1) := by
  have hperm : (sort_points l).Perm l := List.perm_insertionSort pairLe l
  have hsorted : List.Pairwise pairLe (sort_points l) := List.sorted_insertionSort pairLe l
  refine ⟨hperm, hsorted, ?_⟩
  exact List.Pairwise.imp (fun h => h.elim le_of_lt (fun hh => le_of_eq hh.1)) hsorted
